import Mathlib

/-
Shallow embedding of the streaming aggregation-and-signal pipeline
(src/main.py, src/signal_calculator.py, src/order_manager.py,
src/persistence.py, src/historical.py).

Conventions:
* Prices are modelled as rationals (ℚ); the claims under study only use
  exact copies, sums and divisions of prices, never float rounding.
* A POSIX timestamp (seconds) `ts` maps to the UTC calendar day
  `ts / 86400` (days since the epoch), which is exactly what
  `datetime.fromtimestamp(ts, tz=timezone.utc).date()` computes.
* Python code that can raise is embedded in `PyResult`: `ok v` is a
  normal return, `exc name` an uncaught exception of the given class.
* Redis / Mongo state touched by a function is passed in and returned
  explicitly.  Store operations whose Python wrappers swallow their own
  exceptions internally (`save_order`, writes in `set_position`) carry an
  explicit success flag where a claim depends on the failure behaviour.
-/

namespace Pipeline

/-- Result of running a piece of Python code: a value, or an uncaught
exception identified by its class name. -/
inductive PyResult (α : Type) where
  | ok : α → PyResult α
  | exc : String → PyResult α
deriving DecidableEq, Repr

/-- Python list slicing `l[:k]` for an `int` index `k`: a nonnegative `k`
takes the first `k` elements, a negative `k` drops the last `-k`. -/
def pySlice (l : List ℚ) (k : Int) : List ℚ :=
  if 0 ≤ k then l.take k.toNat else l.take (l.length - (-k).toNat)

/-- Python division `x / d`: raises `ZeroDivisionError` when `d = 0`. -/
def pyDiv (x d : ℚ) : PyResult ℚ :=
  if d = 0 then .exc "ZeroDivisionError" else .ok (x / d)

/-- `signal_calculator.SHORT_SMA_PERIOD` -/
def SHORT_SMA_PERIOD : Nat := 50

/-- `signal_calculator.LONG_SMA_PERIOD` -/
def LONG_SMA_PERIOD : Nat := 200

/-- `historical.SYMBOL` (also `signal_calculator.SYMBOL`, `order_manager.SYMBOL`) -/
def SYMBOL : String := "BTCUSDT"

/-- `historical.DAYS_HISTORY_NEEDED` -/
def DAYS_HISTORY_NEEDED : Nat := 250

/-- `signal_calculator.calculate_sma(prices, period)` (src/signal_calculator.py
lines 12-20).  Returns `None` when the list is empty or shorter than
`period`; otherwise sums the first `period` entries and divides by
`period`, with `ZeroDivisionError` caught and turned into `None`. -/
def calculate_sma (prices : List ℚ) (period : Int) : PyResult (Option ℚ) :=
  if prices = [] ∨ (prices.length : Int) < period then .ok none
  else
    let relevant_prices := pySlice prices period
    match pyDiv relevant_prices.sum (period : ℚ) with
    | .ok v => .ok (some v)
    | .exc e => if e = "ZeroDivisionError" then .ok none else .exc e

/-- The crossover decision block of `signal_calculator.check_sma_crossover`
(src/signal_calculator.py lines 72-85), as a function of the current and
previous SMA values: golden cross first, then death cross, else no
signal. -/
def crossoverSignal (currShort currLong prevShort prevLong : ℚ) : Option String :=
  if currShort > currLong ∧ prevShort ≤ prevLong then some "BUY"
  else if currShort < currLong ∧ prevShort ≥ prevLong then some "SELL"
  else none

/-- The `reason` string attached to a detected signal
(src/signal_calculator.py lines 78 and 84). -/
def crossoverReason (sig : String) : String :=
  if sig = "BUY" then "SMA50 crossed above SMA200" else "SMA50 crossed below SMA200"

/-- A document of the Mongo `signals` collection as built in
`check_sma_crossover` (src/signal_calculator.py lines 90-99). -/
structure SignalRec where
  day : Nat
  symbol : String
  sigType : String
  reason : String
  priceAtSignal : ℚ
  smaShort : ℚ
  smaLong : ℚ
deriving DecidableEq, Repr

/-- The store state read and written by `check_sma_crossover`: the Redis
price list `prices:SYMBOL:derived_1d`, the two fields of the Redis hash
`previous_sma:SYMBOL`, and the Mongo `signals` collection. -/
structure CrossoverState where
  cache : List ℚ
  prevSmaShort : Option ℚ
  prevSmaLong : Option ℚ
  signals : List SignalRec
deriving DecidableEq, Repr

/-- `persistence.get_prices_from_cache` (src/persistence.py lines 73-83):
`LRANGE key 0 count-1`, i.e. the first `count` cached prices. -/
def get_prices_from_cache (cache : List ℚ) (count : Nat) : List ℚ :=
  cache.take count

/-- `signal_calculator.check_sma_crossover` (src/signal_calculator.py
lines 22-114).  Returns the updated store state and the signal emitted
(the signal type handed to the order manager), or an uncaught exception.
The Redis hash write in `set_previous_smas` is modelled as succeeding;
its wrapper swallows its own store errors, which no claim here depends
on. -/
def check_sma_crossover (st : CrossoverState) (calcDay : Nat) (derivedClosePrice : ℚ) :
    PyResult (CrossoverState × Option String) :=
  let prices := get_prices_from_cache st.cache LONG_SMA_PERIOD
  if prices = [] then .ok (st, none)
  else if prices.length < LONG_SMA_PERIOD then
    -- logs the short SMA when computable, stores nothing, returns early
    .ok (st, none)
  else
    match calculate_sma prices (SHORT_SMA_PERIOD : Int) with
    | .exc e => .exc e
    | .ok currShortOpt =>
      match calculate_sma prices (LONG_SMA_PERIOD : Int) with
      | .exc e => .exc e
      | .ok currLongOpt =>
        match currShortOpt, currLongOpt with
        | some currShort, some currLong =>
          let prevShortOpt := st.prevSmaShort
          let prevLongOpt := st.prevSmaLong
          -- store current SMAs for the next day's comparison, unconditionally
          let st1 : CrossoverState :=
            { st with prevSmaShort := some currShort, prevSmaLong := some currLong }
          match prevShortOpt, prevLongOpt with
          | some prevShort, some prevLong =>
            match crossoverSignal currShort currLong prevShort prevLong with
            | some sig =>
              let st2 : CrossoverState :=
                { st1 with signals := st1.signals ++
                  [⟨calcDay, SYMBOL, sig, crossoverReason sig, derivedClosePrice,
                    currShort, currLong⟩] }
              .ok (st2, some sig)
            | none => .ok (st1, none)
          | _, _ => .ok (st1, none)
        | _, _ => .ok (st, none)

/-! ## Daily Aggregator (`main.data_processor`) -/

/-- A queue item as enqueued by `websocket_listener` (src/main.py lines
37-42): receive timestamp (POSIX seconds), best bid, best ask.  The
`update_id` is carried but never read by the processor, so it is
omitted. -/
structure Tick where
  ts : Nat
  bid : ℚ
  ask : ℚ
deriving DecidableEq, Repr

/-- `datetime.fromtimestamp(ts, tz=timezone.utc).date()` as an epoch day
number (src/main.py lines 85-86). -/
def tickDay (t : Tick) : Nat := t.ts / 86400

/-- `mid_price = (bid + ask) / 2.0` (src/main.py line 83). -/
def midPrice (t : Tick) : ℚ := (t.bid + t.ask) / 2

/-- The loop state of `data_processor` (src/main.py lines 67-68):
`current_day` and `last_mid_price`, both initially `None`. -/
structure AggState where
  currentDay : Option Nat
  lastMid : Option ℚ
deriving DecidableEq, Repr

/-- The initial `data_processor` state. -/
def initAggState : AggState := ⟨none, none⟩

/-- One iteration of the `data_processor` loop body on a dequeued tick
(src/main.py lines 71-131).  Returns the new loop state and the list of
`(day, close)` derived closes produced by this tick (each such pair is
saved via `save_derived_price`, pushed into the cache, and handed to the
crossover check). -/
def processTick (s : AggState) (t : Tick) : AggState × List (Nat × ℚ) :=
  if t.bid ≤ 0 ∨ t.ask ≤ 0 then (s, [])
  else
    let mid := midPrice t
    let eventDate := tickDay t
    match s.currentDay with
    | none => (⟨some eventDate, some mid⟩, [])
    | some currentDay =>
      if eventDate > currentDay then
        match s.lastMid with
        | some lastMid => (⟨some eventDate, some mid⟩, [(currentDay, lastMid)])
        | none => (⟨some eventDate, some mid⟩, [])
      else if eventDate = currentDay then
        (⟨some currentDay, some mid⟩, [])
      else
        (s, [])

/-- Run of `data_processor` over a finite sequence of dequeued ticks,
collecting the derived closes in order. -/
def processTicks : AggState → List Tick → AggState × List (Nat × ℚ)
  | s, [] => (s, [])
  | s, t :: ts =>
    let r1 := processTick s t
    let r2 := processTicks r1.1 ts
    (r2.1, r1.2 ++ r2.2)

/-! ## Redis price-list writes -/

/-- `persistence.add_derived_price_to_cache` (src/persistence.py lines
61-71): `LPUSH` the price, then `LTRIM 0 max_len-1`.  The live path in
`data_processor` calls it with `max_len = LONG_SMA_PERIOD + 50`
(src/main.py line 106). -/
def add_derived_price_to_cache (cache : List ℚ) (price : ℚ) (max_len : Nat) : List ℚ :=
  (price :: cache).take max_len

/-- Redis `LPUSH key v1 ... vn`: values are inserted at the head one
after the other, so the last argument ends up first. -/
def redisLpushMany (cache : List ℚ) (vals : List ℚ) : List ℚ :=
  vals.foldl (fun acc v => v :: acc) cache

/-- The Redis cache population of `historical.fetch_historical_data`
(src/historical.py lines 92-103): delete the key, `LPUSH` the reversed
chronological close-price list, `LTRIM 0 DAYS_HISTORY_NEEDED-1`.
`prices_to_cache` is in API order: oldest day first. -/
def backfillPopulateCache (prices_to_cache : List ℚ) : List ℚ :=
  (redisLpushMany [] prices_to_cache.reverse).take DAYS_HISTORY_NEEDED

/-! ## Mongo `daily_derived_prices` writes (backfill path) -/

/-- One parsed Binance kline as used by `fetch_historical_data`
(src/historical.py lines 47-67): close time in milliseconds and close
price. -/
structure Kline where
  closeTimeMs : Nat
  closePrice : ℚ
deriving DecidableEq, Repr

/-- A document of the `daily_derived_prices` collection as built by the
backfill (src/historical.py lines 61-67). -/
structure DailyDoc where
  day : Nat
  symbol : String
  price : ℚ
  tsMs : Nat
  isHistorical : Bool
deriving DecidableEq, Repr

/-- The Mongo `daily_derived_prices` collection, keyed by
`(date, symbol)` — the filter of every upsert against it. -/
def MongoDailyStore : Type := Nat × String → Option DailyDoc

/-- The document `fetch_historical_data` builds for a kline: the date is
the UTC day of the close time. -/
def klineToDoc (k : Kline) : DailyDoc :=
  ⟨k.closeTimeMs / 1000 / 86400, SYMBOL, k.closePrice, k.closeTimeMs, true⟩

/-- One `UpdateOne({'date','symbol'}, {'$set': doc}, upsert=True)` as
issued by the backfill bulk write (src/historical.py lines 78-84): the
document under the key is replaced (or created) wholesale, since the
`$set` carries every field. -/
def upsertDoc (s : MongoDailyStore) (d : DailyDoc) : MongoDailyStore :=
  fun k => if k = (d.day, d.symbol) then some d else s k

/-- The Mongo write phase of `fetch_historical_data` over a list of
parsed klines (src/historical.py lines 73-88), applied in list order.
(`ordered=False` only matters when two klines share a day, which cannot
happen for distinct 1d candles.) -/
def backfillSave (s : MongoDailyStore) (klines : List Kline) : MongoDailyStore :=
  (klines.map klineToDoc).foldl upsertDoc s

/-! ## Position State Machine (`order_manager.process_signal`) -/

/-- A document of the Mongo `orders` collection as built by
`process_signal` (src/order_manager.py lines 28-36 and 44-52). -/
structure OrderRec where
  ts : Nat
  symbol : String
  side : String
  orderKind : String
  price : ℚ
  status : String
  basedOnDay : Nat
deriving DecidableEq, Repr

/-- Construction of the order dict in `process_signal`.  The
`signal_based_on_date` field evaluates
`... - timedelta(days=1) ... if datetime.now(utc).hour < 1 else ...`,
but `order_manager.py` imports only `datetime` and `timezone` from
`datetime` (line 3), never `timedelta`: when the wall-clock UTC hour is
0 the construction raises `NameError`. -/
def mkOrder (side : String) (price : ℚ) (nowTs nowHour nowDay : Nat) :
    Pipeline.PyResult OrderRec :=
  if nowHour < 1 then .exc "NameError"
  else .ok ⟨nowTs, SYMBOL, side, "MARKET", price, "SIMULATED_FILLED", nowDay⟩

/-- The store state read and written by `process_signal`: the Redis
`position:SYMBOL` value and the Mongo `orders` collection. -/
structure PosState where
  position : Option String
  orders : List OrderRec
deriving DecidableEq, Repr

/-- `order_manager.process_signal` (src/order_manager.py lines 9-75).
`nowTs`/`nowHour`/`nowDay` are the wall clock at order construction;
`mongoOrderWriteOk` is whether the Mongo insert inside
`persistence.save_order` succeeds, and `redisSetOk` whether the Redis
`SET` inside `persistence.set_position` succeeds — both wrappers catch
their own store exceptions and return normally either way
(src/persistence.py lines 95-101 and 112-118), so the
`try/except` around the two calls in `process_signal` never fires and
the position write is attempted even after a failed order write. -/
def process_signal (st : PosState) (signal_type : String) (price_at_signal : ℚ)
    (nowTs nowHour nowDay : Nat) (mongoOrderWriteOk redisSetOk : Bool) :
    Pipeline.PyResult PosState :=
  let current_position := st.position.getD "FLAT"
  let decision : Pipeline.PyResult (Option OrderRec × String) :=
    if signal_type = "BUY" then
      if current_position = "FLAT" then
        match mkOrder "BUY" price_at_signal nowTs nowHour nowDay with
        | .ok o => .ok (some o, "LONG")
        | .exc e => .exc e
      else .ok (none, current_position)
    else if signal_type = "SELL" then
      if current_position = "LONG" then
        match mkOrder "SELL" price_at_signal nowTs nowHour nowDay with
        | .ok o => .ok (some o, "FLAT")
        | .exc e => .exc e
      else .ok (none, current_position)
    else .ok (none, current_position)
  match decision with
  | .exc e => .exc e
  | .ok (none, _) => .ok st
  | .ok (some o, new_position) =>
    -- save_order: Mongo insert, failure swallowed after logging
    let st1 := if mongoOrderWriteOk then { st with orders := st.orders ++ [o] } else st
    -- set_position: Redis SET, failure swallowed after logging
    .ok (if redisSetOk then { st1 with position := some new_position } else st1)

/-! ## Helper lemmas -/

/-- A left fold of cons reverses the list in front of the accumulator. -/
lemma redisLpushMany_eq (vals acc : List ℚ) :
    redisLpushMany acc vals = vals.reverse ++ acc := by
  unfold redisLpushMany
  induction vals generalizing acc with
  | nil => rfl
  | cons v vs ih =>
    rw [List.foldl_cons, ih]
    simp

/-- The backfill cache population keeps the first `DAYS_HISTORY_NEEDED`
entries of the chronological (oldest-first) close list, in that order:
the `reversed(...)` argument and the head-insertion of `LPUSH` cancel. -/
lemma backfillPopulateCache_take (prices : List ℚ) :
    backfillPopulateCache prices = prices.take DAYS_HISTORY_NEEDED := by
  unfold backfillPopulateCache
  rw [redisLpushMany_eq, List.append_nil, List.reverse_reverse]

/-! ## Claims -/

/-- C3: when both previous averages exist, the crossover decision of
`check_sma_crossover` emits BUY iff `shortAvg > longAvg` and
`prevShortAvg <= prevLongAvg`, SELL iff `shortAvg < longAvg` and
`prevShortAvg >= prevLongAvg`, and otherwise no signal; in particular
previous (10, 20) with current (21, 20) yields BUY, previous (20, 10)
with current (9, 10) yields SELL, and previous (25, 20) with current
(26, 20) yields no signal. -/
theorem crossover_decision_table :
    ∀ cs cl ps pl : ℚ,
      (crossoverSignal cs cl ps pl = some "BUY" ↔ cs > cl ∧ ps ≤ pl) ∧
      (crossoverSignal cs cl ps pl = some "SELL" ↔ cs < cl ∧ ps ≥ pl) ∧
      (crossoverSignal cs cl ps pl = none ↔ ¬(cs > cl ∧ ps ≤ pl) ∧ ¬(cs < cl ∧ ps ≥ pl)) ∧
      crossoverSignal 21 20 10 20 = some "BUY" ∧
      crossoverSignal 9 10 20 10 = some "SELL" ∧
      crossoverSignal 26 20 25 20 = none := by
  intro cs cl ps pl
  refine ⟨?_, ?_, ?_, by decide, by decide, by decide⟩
  · unfold crossoverSignal
    split_ifs with h1 h2
    · simpa using h1
    · exact ⟨fun h => by simp at h, fun h => absurd h h1⟩
    · exact ⟨fun h => by simp at h, fun h => absurd h h1⟩
  · unfold crossoverSignal
    split_ifs with h1 h2
    · exact ⟨fun h => by simp at h,
        fun h => absurd h.1 (not_lt.mpr (le_of_lt h1.1))⟩
    · simpa using h2
    · exact ⟨fun h => by simp at h, fun h => absurd h h2⟩
  · unfold crossoverSignal
    split_ifs with h1 h2
    · exact ⟨fun h => by simp at h, fun h => absurd h1 h.1⟩
    · exact ⟨fun h => by simp at h, fun h => absurd h2 h.2⟩
    · exact ⟨fun _ => ⟨h1, h2⟩, fun _ => rfl⟩

/-- C5: for a positive window `w`, `calculate_sma` returns the
arithmetic mean of the first `w` entries when the list has at least `w`
entries, and `None` when the list is empty or shorter than `w`. -/
theorem calculate_sma_mean_or_none (prices : List ℚ) (w : Nat) (hw : 0 < w) :
    (w ≤ prices.length →
      calculate_sma prices (w : Int) =
        .ok (some ((prices.take w).sum / (w : ℚ)))) ∧
    (prices = [] ∨ prices.length < w →
      calculate_sma prices (w : Int) = .ok none) := by
  constructor
  · intro hlen
    have hne : prices ≠ [] := by
      intro h
      rw [h] at hlen
      simp at hlen
      omega
    have hguard : ¬(prices = [] ∨ (prices.length : Int) < (w : Int)) := by
      push_neg
      exact ⟨hne, by exact_mod_cast hlen⟩
    have hslice : pySlice prices (w : Int) = prices.take w := by
      simp [pySlice]
    have hq : ((w : Int) : ℚ) ≠ 0 := by
      have : (0 : ℚ) < ((w : Int) : ℚ) := by exact_mod_cast hw
      exact ne_of_gt this
    have hdiv : pyDiv (prices.take w).sum ((w : Int) : ℚ) =
        .ok ((prices.take w).sum / (w : ℚ)) := by
      unfold pyDiv
      rw [if_neg hq]
      norm_cast
    simp only [calculate_sma, if_neg hguard, hslice, hdiv]
  · intro h
    have hguard : prices = [] ∨ (prices.length : Int) < (w : Int) := by
      rcases h with h | h
      · exact Or.inl h
      · exact Or.inr (by exact_mod_cast h)
    unfold calculate_sma
    rw [if_pos hguard]

/-- C5 witness: `calculate_sma [1, 3] 2` is the mean 2, and
`calculate_sma [1] 2` is `None`. -/
theorem calculate_sma_mean_or_none_witness :
    calculate_sma [1, 3] 2 = .ok (some 2) ∧ calculate_sma [1] 2 = .ok none := by
  have h1 := (calculate_sma_mean_or_none [1, 3] 2 (by norm_num)).1 (by simp)
  have h2 := (calculate_sma_mean_or_none [1] 2 (by norm_num)).2 (by simp)
  exact ⟨h1.trans (by norm_num), h2⟩

/-- C10: `calculate_sma` never lets an exception escape — the inner
`ZeroDivisionError` is the only raisable exception and the `except`
clause turns it into `None`; in particular a zero period with a
non-empty list yields `None`. -/
theorem calculate_sma_total (prices : List ℚ) (period : Int) :
    (∃ v, calculate_sma prices period = .ok v) ∧
    (prices ≠ [] → calculate_sma prices 0 = .ok none) := by
  constructor
  · simp only [calculate_sma, pyDiv]
    split_ifs with h1 h2
    · exact ⟨none, rfl⟩
    · exact ⟨none, by simp⟩
    · exact ⟨some _, rfl⟩
  · intro h
    have hguard : ¬(prices = [] ∨ (prices.length : Int) < (0 : Int)) := by
      push_neg
      exact ⟨h, by positivity⟩
    simp [calculate_sma, hguard, pyDiv]

/-- C10 witness: `calculate_sma [1, 2] 0` returns `None` rather than
raising. -/
theorem calculate_sma_total_witness :
    calculate_sma [1, 2] 0 = .ok none :=
  (calculate_sma_total [1, 2] 0).2 (by simp)

/-- C7: `data_processor` discards a tick with non-positive bid or ask,
and a tick whose day precedes `currentDay`, with no state change and no
derived close. -/
theorem invalid_or_late_tick_ignored :
    ∀ (s : AggState) (t : Tick),
      ((t.bid ≤ 0 ∨ t.ask ≤ 0) → processTick s t = (s, [])) ∧
      (∀ cd, s.currentDay = some cd → tickDay t < cd →
        0 < t.bid → 0 < t.ask → processTick s t = (s, [])) := by
  intro s t
  constructor
  · intro h
    simp [processTick, h]
  · intro cd hcd hlt hb ha
    have hguard : ¬(t.bid ≤ 0 ∨ t.ask ≤ 0) := by push_neg; exact ⟨hb, ha⟩
    have h1 : ¬(tickDay t > cd) := by omega
    have h2 : ¬(tickDay t = cd) := by omega
    simp [processTick, hguard, hcd, h1, h2]

/-- C7 witness: with state `(day 5, mid 2)`, a tick with negative bid
and a day-0 tick are both ignored. -/
theorem invalid_or_late_tick_ignored_witness :
    processTick ⟨some 5, some 2⟩ ⟨0, -1, 3⟩ = (⟨some 5, some 2⟩, []) ∧
    processTick ⟨some 5, some 2⟩ ⟨0, 1, 3⟩ = (⟨some 5, some 2⟩, []) :=
  ⟨(invalid_or_late_tick_ignored ⟨some 5, some 2⟩ ⟨0, -1, 3⟩).1 (by norm_num),
   (invalid_or_late_tick_ignored ⟨some 5, some 2⟩ ⟨0, 1, 3⟩).2 5 rfl
     (by norm_num [tickDay]) (by norm_num) (by norm_num)⟩

/-- C2 (code bug): when the Mongo insert inside `save_order` fails, the
exception is swallowed inside `save_order` (src/persistence.py lines
98-101), so `process_signal` still overwrites the position: starting
FLAT, a BUY with a failing order write ends with position LONG and an
empty order log, contradicting "if the order log write fails the
position does not change". -/
theorem order_write_failure_position_still_updated :
    process_signal ⟨some "FLAT", []⟩ "BUY" 100 1000 12 20000 false true =
      .ok ⟨some "LONG", []⟩ ∧
    process_signal ⟨some "FLAT", []⟩ "BUY" 100 1000 12 20000 true true =
      .ok ⟨some "LONG", [⟨1000, SYMBOL, "BUY", "MARKET", 100, "SIMULATED_FILLED", 20000⟩]⟩ := by
  constructor <;> rfl

/-- C4 (code bug): `order_manager.py` never imports `timedelta`, so
whenever the wall-clock UTC hour is 0 (which is exactly when day-rollover
signals fire) the order dict construction raises `NameError` on both
order-emitting transitions: no order is logged and the position does not
change.  Outside that hour the transition table holds, as the last four
conjuncts show for BUY/FLAT, BUY/LONG, SELL/LONG, SELL/FLAT, missing
position, and an unrecognized signal. -/
theorem process_signal_midnight_name_error :
    process_signal ⟨some "FLAT", []⟩ "BUY" 100 1000 0 20000 true true = .exc "NameError" ∧
    process_signal ⟨some "LONG", []⟩ "SELL" 100 1000 0 20000 true true = .exc "NameError" ∧
    process_signal ⟨some "FLAT", []⟩ "BUY" 100 1000 12 20000 true true =
      .ok ⟨some "LONG", [⟨1000, SYMBOL, "BUY", "MARKET", 100, "SIMULATED_FILLED", 20000⟩]⟩ ∧
    process_signal ⟨some "LONG", []⟩ "BUY" 100 1000 12 20000 true true =
      .ok ⟨some "LONG", []⟩ ∧
    process_signal ⟨some "LONG", []⟩ "SELL" 100 1000 12 20000 true true =
      .ok ⟨some "FLAT", [⟨1000, SYMBOL, "SELL", "MARKET", 100, "SIMULATED_FILLED", 20000⟩]⟩ ∧
    process_signal ⟨some "FLAT", []⟩ "SELL" 100 1000 12 20000 true true =
      .ok ⟨some "FLAT", []⟩ ∧
    process_signal ⟨none, []⟩ "BUY" 100 1000 12 20000 true true =
      .ok ⟨some "LONG", [⟨1000, SYMBOL, "BUY", "MARKET", 100, "SIMULATED_FILLED", 20000⟩]⟩ ∧
    process_signal ⟨some "FLAT", []⟩ "HOLD" 100 1000 12 20000 true true =
      .ok ⟨some "FLAT", []⟩ := by
  refine ⟨rfl, rfl, rfl, rfl, rfl, rfl, rfl, rfl⟩

/-- C8 (code bug): the backfill cache population passes
`reversed(prices_to_cache)` (newest first) to a multi-value `LPUSH`,
which puts its *last* argument at the head — so the cache ends up
oldest-first, not most-recent-first: chronological closes `[1, 2]`
produce cache `[1, 2]` with the older price 1 at the head.  The live
path and the size bound behave as claimed: a single `LPUSH` puts the new
price at the head, and a 300-price backfill is trimmed to 250. -/
theorem backfill_cache_oldest_first :
    backfillPopulateCache [1, 2] = [1, 2] ∧
    add_derived_price_to_cache [1, 2] 3 (LONG_SMA_PERIOD + 50) = [3, 1, 2] ∧
    (backfillPopulateCache (List.replicate 300 (1 : ℚ))).length = 250 := by
  refine ⟨rfl, rfl, ?_⟩
  rw [backfillPopulateCache_take, List.length_take, List.length_replicate]
  norm_num [DAYS_HISTORY_NEEDED]

/-- The last document in `docs` whose `(day, symbol)` key is `k`, if
any — the document a key ends up holding after a run of upserts. -/
def lastUpsert (docs : List DailyDoc) (k : Nat × String) : Option DailyDoc :=
  docs.foldl (fun acc d => if k = (d.day, d.symbol) then some d else acc) none

lemma lastUpsert_foldl_aux (docs : List DailyDoc) (k : Nat × String)
    (a : Option DailyDoc) :
    docs.foldl (fun acc d => if k = (d.day, d.symbol) then some d else acc) a
      = (lastUpsert docs k).elim a some := by
  induction docs generalizing a with
  | nil => rfl
  | cons d ds ih =>
    rw [List.foldl_cons, ih]
    have hrhs : lastUpsert (d :: ds) k
        = (lastUpsert ds k).elim (if k = (d.day, d.symbol) then some d else none) some := by
      unfold lastUpsert
      rw [List.foldl_cons, ih]
      rfl
    rw [hrhs]
    cases hl : lastUpsert ds k with
    | some e => rfl
    | none =>
      by_cases hk : k = (d.day, d.symbol) <;> simp [hk]

/-- Pointwise description of a run of upserts: a key holds the last
document written for it, or its prior content if none was. -/
lemma foldl_upsertDoc_apply (docs : List DailyDoc) (s : MongoDailyStore)
    (k : Nat × String) :
    docs.foldl upsertDoc s k = (lastUpsert docs k).elim (s k) some := by
  induction docs generalizing s with
  | nil => rfl
  | cons d ds ih =>
    rw [List.foldl_cons, ih]
    have : upsertDoc s d k = if k = (d.day, d.symbol) then some d else s k := rfl
    rw [this]
    have hrhs : lastUpsert (d :: ds) k
        = (lastUpsert ds k).elim (if k = (d.day, d.symbol) then some d else none) some := by
      unfold lastUpsert
      rw [List.foldl_cons, lastUpsert_foldl_aux]
      rfl
    rw [hrhs]
    cases hl : lastUpsert ds k with
    | some e => rfl
    | none =>
      by_cases hk : k = (d.day, d.symbol) <;> simp [hk]

/-- C9: running the historical backfill twice over the same klines
leaves the `daily_derived_prices` collection exactly as one run does —
every write is an upsert keyed by `(date, symbol)`, so a re-run
overwrites each of its own records and creates nothing new. -/
theorem backfill_upsert_idempotent :
    ∀ (s : MongoDailyStore) (klines : List Kline),
      backfillSave (backfillSave s klines) klines = backfillSave s klines := by
  intro s klines
  funext k
  unfold backfillSave
  rw [foldl_upsertDoc_apply, foldl_upsertDoc_apply]
  cases hl : lastUpsert (klines.map klineToDoc) k with
  | some d => rfl
  | none => rfl

/-- The previous-averages record `(sma_50, sma_200)` after a
`check_sma_crossover` call that returned normally. -/
def prevFieldsAfter (r : PyResult (CrossoverState × Option String)) :
    Option (Option ℚ × Option ℚ) :=
  match r with
  | .ok (st, _) => some (st.prevSmaShort, st.prevSmaLong)
  | .exc _ => none

/-- C6: with at least `LONG_SMA_PERIOD` cached prices,
`check_sma_crossover` returns normally and overwrites the
previous-averages record with the newly computed `(shortAvg, longAvg)`
whether or not a signal fires; with fewer cached prices it returns early
leaving the whole state — in particular the previous-averages record —
unchanged. -/
theorem check_sma_crossover_prev_record :
    ∀ (st : CrossoverState) (calcDay : Nat) (price : ℚ),
      (LONG_SMA_PERIOD ≤ st.cache.length →
        prevFieldsAfter (check_sma_crossover st calcDay price) =
          some (some ((st.cache.take SHORT_SMA_PERIOD).sum / (SHORT_SMA_PERIOD : ℚ)),
                some ((st.cache.take LONG_SMA_PERIOD).sum / (LONG_SMA_PERIOD : ℚ)))) ∧
      (st.cache.length < LONG_SMA_PERIOD →
        check_sma_crossover st calcDay price = .ok (st, none)) := by
  intro st calcDay price
  constructor
  · intro hlen
    have hlen200 : (st.cache.take LONG_SMA_PERIOD).length = LONG_SMA_PERIOD := by
      rw [List.length_take]
      omega
    have hne : st.cache.take LONG_SMA_PERIOD ≠ [] := by
      intro h
      rw [h] at hlen200
      simp [LONG_SMA_PERIOD] at hlen200
    have h0s : (0 : Int) ≤ ((SHORT_SMA_PERIOD : Nat) : Int) := Int.natCast_nonneg _
    have h0l : (0 : Int) ≤ ((LONG_SMA_PERIOD : Nat) : Int) := Int.natCast_nonneg _
    have hsma50 : calculate_sma (st.cache.take LONG_SMA_PERIOD) (SHORT_SMA_PERIOD : Int)
        = .ok (some ((st.cache.take SHORT_SMA_PERIOD).sum / (SHORT_SMA_PERIOD : ℚ))) := by
      have hguard : ¬(st.cache.take LONG_SMA_PERIOD = [] ∨
          ((st.cache.take LONG_SMA_PERIOD).length : Int) < ((SHORT_SMA_PERIOD : Nat) : Int)) := by
        push_neg
        refine ⟨hne, ?_⟩
        rw [hlen200]
        norm_num [SHORT_SMA_PERIOD, LONG_SMA_PERIOD]
      have hslice : pySlice (st.cache.take LONG_SMA_PERIOD) ((SHORT_SMA_PERIOD : Nat) : Int)
          = st.cache.take SHORT_SMA_PERIOD := by
        unfold pySlice
        rw [if_pos h0s, Int.toNat_natCast, List.take_take]
        congr 1
      have hdiv : pyDiv (st.cache.take SHORT_SMA_PERIOD).sum (((SHORT_SMA_PERIOD : Nat) : Int) : ℚ)
          = .ok ((st.cache.take SHORT_SMA_PERIOD).sum / (SHORT_SMA_PERIOD : ℚ)) := by
        unfold pyDiv
        rw [if_neg (by norm_num [SHORT_SMA_PERIOD])]
        norm_cast
      simp only [calculate_sma, if_neg hguard, hslice, hdiv]
    have hsma200 : calculate_sma (st.cache.take LONG_SMA_PERIOD) (LONG_SMA_PERIOD : Int)
        = .ok (some ((st.cache.take LONG_SMA_PERIOD).sum / (LONG_SMA_PERIOD : ℚ))) := by
      have hguard : ¬(st.cache.take LONG_SMA_PERIOD = [] ∨
          ((st.cache.take LONG_SMA_PERIOD).length : Int) < ((LONG_SMA_PERIOD : Nat) : Int)) := by
        push_neg
        refine ⟨hne, ?_⟩
        rw [hlen200]
      have hslice : pySlice (st.cache.take LONG_SMA_PERIOD) ((LONG_SMA_PERIOD : Nat) : Int)
          = st.cache.take LONG_SMA_PERIOD := by
        unfold pySlice
        rw [if_pos h0l, Int.toNat_natCast]
        exact List.take_of_length_le (le_of_eq hlen200)
      have hdiv : pyDiv (st.cache.take LONG_SMA_PERIOD).sum (((LONG_SMA_PERIOD : Nat) : Int) : ℚ)
          = .ok ((st.cache.take LONG_SMA_PERIOD).sum / (LONG_SMA_PERIOD : ℚ)) := by
        unfold pyDiv
        rw [if_neg (by norm_num [LONG_SMA_PERIOD])]
        norm_cast
      simp only [calculate_sma, if_neg hguard, hslice, hdiv]
    have hnotlt : ¬((st.cache.take LONG_SMA_PERIOD).length < LONG_SMA_PERIOD) := by
      rw [hlen200]
      exact lt_irrefl _
    simp only [check_sma_crossover, get_prices_from_cache, if_neg hne, if_neg hnotlt,
      hsma50, hsma200]
    rcases hps : st.prevSmaShort with _ | ps
    · rfl
    · rcases hpl : st.prevSmaLong with _ | pl
      · rfl
      · dsimp only
        rcases crossoverSignal
            ((st.cache.take SHORT_SMA_PERIOD).sum / (SHORT_SMA_PERIOD : ℚ))
            ((st.cache.take LONG_SMA_PERIOD).sum / (LONG_SMA_PERIOD : ℚ)) ps pl with _ | sig
        · rfl
        · rfl
  · intro hlen
    have htake : st.cache.take LONG_SMA_PERIOD = st.cache :=
      List.take_of_length_le (le_of_lt hlen)
    by_cases hc : st.cache = []
    · simp [check_sma_crossover, get_prices_from_cache, htake, hc]
    · simp only [check_sma_crossover, get_prices_from_cache, htake, if_neg hc,
        if_pos hlen]

/-- C6 witness: a 200-price cache leads to the previous-averages record
being overwritten with the freshly computed pair, and a 1-price cache
leaves the state untouched. -/
theorem check_sma_crossover_prev_record_witness :
    prevFieldsAfter (check_sma_crossover ⟨List.replicate 200 (1 : ℚ), some 2, some 1, []⟩ 7 3) =
      some (some (((List.replicate 200 (1 : ℚ)).take SHORT_SMA_PERIOD).sum / (SHORT_SMA_PERIOD : ℚ)),
            some (((List.replicate 200 (1 : ℚ)).take LONG_SMA_PERIOD).sum / (LONG_SMA_PERIOD : ℚ))) ∧
    check_sma_crossover ⟨[5], none, none, []⟩ 7 3 = .ok (⟨[5], none, none, []⟩, none) :=
  ⟨(check_sma_crossover_prev_record ⟨List.replicate 200 (1 : ℚ), some 2, some 1, []⟩ 7 3).1
      (by rw [List.length_replicate]; exact le_rfl),
   (check_sma_crossover_prev_record ⟨[5], none, none, []⟩ 7 3).2
      (by norm_num [LONG_SMA_PERIOD])⟩

/-- Splitting a processed tick sequence: state threads through, derived
closes concatenate. -/
lemma processTicks_append (s : AggState) (l1 l2 : List Tick) :
    processTicks s (l1 ++ l2)
      = ((processTicks (processTicks s l1).1 l2).1,
         (processTicks s l1).2 ++ (processTicks (processTicks s l1).1 l2).2) := by
  induction l1 generalizing s with
  | nil => simp [processTicks]
  | cons t ts ih =>
    have ih' := ih (processTick s t).1
    simp only [List.cons_append, processTicks, List.append_eq]
    rw [ih']
    simp [List.append_assoc]

/-- Processing valid same-day ticks from a same-day state only moves the
last-mid pointer and derives no close. -/
lemma processTicks_sameDay (l : List Tick) (D : Nat) (m : ℚ)
    (h : ∀ t ∈ l, 0 < t.bid ∧ 0 < t.ask ∧ tickDay t = D) :
    processTicks ⟨some D, some m⟩ l
      = (⟨some D, some (l.foldl (fun _ t => midPrice t) m)⟩, []) := by
  induction l generalizing m with
  | nil => rfl
  | cons t ts ih =>
    obtain ⟨hb, ha, hd⟩ := h t (List.mem_cons_self t ts)
    have hguard : ¬(t.bid ≤ 0 ∨ t.ask ≤ 0) := by push_neg; exact ⟨hb, ha⟩
    have hstep : processTick ⟨some D, some m⟩ t = (⟨some D, some (midPrice t)⟩, []) := by
      simp [processTick, hguard, hd]
    simp only [processTicks, hstep, List.foldl_cons,
      ih (midPrice t) (fun u hu => h u (List.mem_cons_of_mem t hu))]
    simp

/-- A fold that keeps only the last mid-price computes the mid-price of
the last element. -/
lemma foldl_mid_getLast (l : List Tick) (t0 : Tick) :
    l.foldl (fun _ t => midPrice t) (midPrice t0)
      = midPrice ((t0 :: l).getLast (List.cons_ne_nil t0 l)) := by
  induction l generalizing t0 with
  | nil => rfl
  | cons t1 ts ih =>
    rw [List.foldl_cons, ih t1]
    congr 1

/-- Processing a nonempty run of valid same-day ticks from the fresh
state initializes to that day and derives no close; the last mid-price
is that of the last tick. -/
lemma processTicks_allSameDay_fresh (pre : List Tick) (D : Nat) (hpre : pre ≠ [])
    (hday : ∀ t ∈ pre, 0 < t.bid ∧ 0 < t.ask ∧ tickDay t = D) :
    processTicks initAggState pre
      = (⟨some D, some (midPrice (pre.getLast hpre))⟩, []) := by
  cases pre with
  | nil => exact absurd rfl hpre
  | cons t0 rest =>
    obtain ⟨hb0, ha0, hd0⟩ := hday t0 (List.mem_cons_self t0 rest)
    have hguard : ¬(t0.bid ≤ 0 ∨ t0.ask ≤ 0) := by push_neg; exact ⟨hb0, ha0⟩
    have hstep : processTick initAggState t0 = (⟨some D, some (midPrice t0)⟩, []) := by
      simp [processTick, initAggState, hguard, hd0]
    simp only [processTicks, hstep,
      processTicks_sameDay rest D (midPrice t0)
        (fun u hu => hday u (List.mem_cons_of_mem t0 hu)),
      foldl_mid_getLast]
    simp

/-- C1: from a fresh processor, any nonempty run of valid day-`D` ticks
followed by the first valid tick of day `D+1` yields exactly one derived
close, for day `D`, equal to the mid-price of the last day-`D` tick. -/
theorem rollover_derives_close_once (pre : List Tick) (t2 : Tick) (D : Nat)
    (hpre : pre ≠ [])
    (hday : ∀ t ∈ pre, 0 < t.bid ∧ 0 < t.ask ∧ tickDay t = D)
    (hb2 : 0 < t2.bid) (ha2 : 0 < t2.ask) (hd2 : tickDay t2 = D + 1) :
    (processTicks initAggState (pre ++ [t2])).2
      = [(D, midPrice (pre.getLast hpre))] := by
  rw [processTicks_append, processTicks_allSameDay_fresh pre D hpre hday]
  have hguard : ¬(t2.bid ≤ 0 ∨ t2.ask ≤ 0) := by push_neg; exact ⟨hb2, ha2⟩
  have hgt : tickDay t2 > D := by omega
  have hfire : processTick ⟨some D, some (midPrice (pre.getLast hpre))⟩ t2
      = (⟨some (tickDay t2), some (midPrice t2)⟩, [(D, midPrice (pre.getLast hpre))]) := by
    simp [processTick, hguard, hgt]
  simp [processTicks, hfire]

/-- C1 witness: one day-0 tick with mid 2 followed by the first day-1
tick derives exactly the close `(0, 2)`. -/
theorem rollover_derives_close_once_witness :
    (processTicks initAggState [⟨10, 1, 3⟩, ⟨86400, 2, 4⟩]).2 = [(0, 2)] := by
  have h := rollover_derives_close_once [⟨10, 1, 3⟩] ⟨86400, 2, 4⟩ 0
    (by simp)
    (by
      intro t ht
      simp only [List.mem_singleton] at ht
      subst ht
      exact ⟨by norm_num, by norm_num, by norm_num [tickDay]⟩)
    (by norm_num) (by norm_num) (by norm_num [tickDay])
  have h2 : ((1 : ℚ) + 3) / 2 = 2 := by norm_num
  simpa [midPrice, h2] using h

end Pipeline
